import Mathlib

/-!
Shallow embedding of the 8BitBeats procedural chiptune generator
(src/gen.rs, src/melodies.rs, src/progs.rs, src/bass.rs and the `AppState`
parameter struct of src/tui.rs).

Modelling conventions:
* Rust `String`/`&str` values are modelled as explicit character lists
  (`RStr := List Char`) so that every string operation is structurally
  recursive and computable; `"lit".data` injects a literal.
* `f32` sample values and durations are modelled as exact rationals (`ℚ`);
  machine-float rounding is not claim-relevant here, while saturating or
  truncating float-to-integer casts are modelled explicitly (`ratToU32`,
  `Int.toNat` after `Int.floor`).
* `u8`/`u32`/`u64`/`usize` are `ℕ` with explicit range conditions where
  overflow or wrapping matters (`i32_as_usize` models Rust's wrapping
  `as usize` cast of a negative `i32`).
* The seeded pseudorandom generator (`rand::StdRng`) and the transcendental
  oscillator/frequency functions (`dasp` sine and square signals,
  `440 * 2^((n-69)/12)`) are abstracted into an explicit `Env` record that is
  threaded through the generation call tree exactly where the Rust code
  threads its `StdRng` and calls its oscillators.  Every concrete behaviour
  of `StdRng` and the oscillators is an instance of `Env`, so theorems
  quantified over `Env` hold for the real program.
* Wall-clock time in the playback service is measured in audio samples
  (`elapsed_secs * 44100` is the code's own conversion), so `Instant`s are
  natural numbers.
-/

/-- Rust strings, as explicit character lists. -/
abbrev RStr := List Char

/-- ASCII lower-casing of one character (the style and progression names the
program compares after `to_lowercase` are ASCII). -/
def asciiLowerChar (c : Char) : Char :=
  if 65 ≤ c.toNat ∧ c.toNat ≤ 90 then Char.ofNat (c.toNat + 32) else c

/-- Rust `str::to_lowercase` on ASCII text. -/
def asciiLower (s : RStr) : RStr := s.map asciiLowerChar

/-- Rust `str::split(sep)`: splits at every occurrence of `sep`, keeping
empty pieces (`"".split('-')` is `[""]`, `"a--b".split('-')` is
`["a","","b"]`). -/
def splitOnChar (sep : Char) : RStr → List RStr
  | [] => [[]]
  | c :: cs =>
    let rest := splitOnChar sep cs
    if c = sep then [] :: rest
    else (c :: rest.headD []) :: rest.tail

/-- Splitting at every character satisfying `p`, keeping empty pieces;
`split_whitespace` is this followed by dropping the empty pieces. -/
def splitWhen (p : Char → Bool) : RStr → List RStr
  | [] => [[]]
  | c :: cs =>
    let rest := splitWhen p cs
    if p c then [] :: rest
    else (c :: rest.headD []) :: rest.tail

/-- Rust `str::split_whitespace`: maximal non-empty runs between whitespace. -/
def splitWhitespace (s : RStr) : List RStr :=
  (splitWhen (fun c => c.isWhitespace) s).filter fun t => ¬t.isEmpty

/-- Rust `str::parse::<uN>` for radix 10: optional leading `+`, at least one
ASCII digit, nothing else, and the value must fit in `bits` bits. -/
def parseUInt10 (bits : ℕ) (s : RStr) : Option ℕ :=
  let cs :=
    match s with
    | c :: rest => if c = Char.ofNat 43 then rest else c :: rest
    | [] => []
  if cs.isEmpty then none
  else if cs.all Char.isDigit then
    let v := cs.foldl (fun a c => a * 10 + (c.toNat - 48)) 0
    if v < 2 ^ bits then some v else none
  else none

/-- Rust `str::parse::<u32>`. -/
def parseU32 (s : RStr) : Option ℕ := parseUInt10 32 s

/-- Rust `str::parse::<u64>`. -/
def parseU64 (s : RStr) : Option ℕ := parseUInt10 64 s

/-- Decimal rendering of a natural number (Rust `format!` `Display` for an
unsigned integer). -/
def natToChars (n : ℕ) : RStr := Nat.toDigits 10 n

/-- The fields of `tui::AppState` that generation and song-id parsing touch.
`is_random` and `song_loader_input` stand for the UI-only fields that are
filled from `Default::default()` by `parse_song_id_to_app_state`. -/
structure AppState where
  scale : RStr
  style : RStr
  bpm : RStr
  length : RStr
  seed : RStr
  is_random : Bool
  song_loader_input : RStr
deriving DecidableEq, Repr

/-- `Default for AppState`, restricted to the embedded fields
(src/tui.rs `impl Default`). -/
def AppState.defaultState : AppState :=
  { scale := "C".data, style := "Pop".data, bpm := "120".data,
    length := "5 min".data, seed := [], is_random := false,
    song_loader_input := [] }

/-- The four distinct `format!` error messages of
`parse_song_id_to_app_state`, in structured form. -/
inductive SongIdError where
  | wrongPartCount (n : ℕ)
  | invalidBpm (s : RStr)
  | invalidLength (s : RStr)
  | invalidSeed (s : RStr)
deriving DecidableEq, Repr

/-- The exact error strings produced by the `format!` calls in
`parse_song_id_to_app_state` (src/gen.rs lines 513-546). -/
def renderSongIdError : SongIdError → RStr
  | .wrongPartCount n =>
      "Invalid Song ID: Expected 5 parts separated by \x27-\x27. Got ".data
        ++ natToChars n
        ++ ". Format: Scale-Style-BPM-LengthInMinutes-Seed".data
  | .invalidBpm s =>
      "Invalid BPM in Song ID: \x27".data ++ s
        ++ "\x27 is not a valid number. Format: Scale-Style-BPM-LengthInMinutes-Seed".data
  | .invalidLength s =>
      "Invalid Length in Song ID: \x27".data ++ s
        ++ "\x27 is not a valid number of minutes. Format: Scale-Style-BPM-LengthInMinutes-Seed".data
  | .invalidSeed s =>
      "Invalid Seed in Song ID: \x27".data ++ s
        ++ "\x27 is not a valid number. Format: Scale-Style-BPM-LengthInMinutes-Seed".data

/-- The name of the offending field for each error message. -/
def songIdErrorField : SongIdError → RStr
  | .wrongPartCount _ => "Song ID".data
  | .invalidBpm _ => "BPM".data
  | .invalidLength _ => "Length".data
  | .invalidSeed _ => "Seed".data

/-- The expected-format hint that every error message spells out. -/
def songIdFormatHint : RStr := "Scale-Style-BPM-LengthInMinutes-Seed".data

/-- `needle` matches the front of `hay`. -/
def leadMatch : RStr → RStr → Bool
  | [], _ => true
  | _ :: _, [] => false
  | a :: as, b :: bs => a == b && leadMatch as bs

/-- `needle` occurs contiguously somewhere in `hay` (substring test). -/
def hasRun (needle : RStr) : RStr → Bool
  | [] => needle.isEmpty
  | c :: cs => leadMatch needle (c :: cs) || hasRun needle cs

/-- `gen::parse_song_id_to_app_state` (src/gen.rs lines 510-557). -/
def parse_song_id_to_app_state (id_string : RStr) : Except RStr AppState :=
  let parts := splitOnChar (Char.ofNat 45) id_string
  if parts.length ≠ 5 then
    .error (renderSongIdError (.wrongPartCount parts.length))
  else
    let scale := parts.getD 0 []
    let style := parts.getD 1 []
    let bpm_str := parts.getD 2 []
    let length_minutes_str := parts.getD 3 []
    let seed_str := parts.getD 4 []
    if (parseU32 bpm_str).isNone ∧ bpm_str ≠ [] then
      .error (renderSongIdError (.invalidBpm bpm_str))
    else
      match parseU32 length_minutes_str with
      | none => .error (renderSongIdError (.invalidLength length_minutes_str))
      | some mins =>
        if (parseU64 seed_str).isNone ∧ seed_str ≠ [] then
          .error (renderSongIdError (.invalidSeed seed_str))
        else
          .ok { scale, style, bpm := bpm_str,
                length := natToChars mins ++ " min".data, seed := seed_str,
                is_random := AppState.defaultState.is_random,
                song_loader_input := AppState.defaultState.song_loader_input }

/-- The success condition of `parse_song_id_to_app_state`, read off the spec:
exactly five `-`-separated fields, Bpm parses as `u32` when non-empty,
LengthMinutes parses as `u32`, Seed parses as `u64` when non-empty. -/
def songIdOkCond (id_string : RStr) : Prop :=
  let parts := splitOnChar (Char.ofNat 45) id_string
  parts.length = 5 ∧
  (parts.getD 2 [] = [] ∨ (parseU32 (parts.getD 2 [])).isSome) ∧
  (parseU32 (parts.getD 3 [])).isSome ∧
  (parts.getD 4 [] = [] ∨ (parseU64 (parts.getD 4 [])).isSome)

instance (id_string : RStr) : Decidable (songIdOkCond id_string) := by
  unfold songIdOkCond
  infer_instance

/-- `melodies::RhythmPattern` (src/melodies.rs lines 85-90): exactly these
four variants exist in the source. -/
inductive RhythmPattern where
  | Simple
  | Medium
  | Complex
  | Syncopated
deriving DecidableEq, Fintype, Repr

/-- Chord qualities used by `progs::get_progression`. -/
inductive ChordQuality where
  | Major
  | Minor
  | Dominant
deriving DecidableEq, Repr

/-- Chord extensions used by `progs::get_progression`. -/
inductive ChordNumber where
  | Triad
  | Seventh
deriving DecidableEq, Repr

/-- The scale modes `melodies::get_melody` selects from. -/
inductive MMode where
  | Ionian
  | Dorian
  | Mixolydian
deriving DecidableEq, Repr

/-- `gen::MusicControl` (src/gen.rs lines 120-125). -/
inductive MusicControl where
  | Pause
  | Resume
  | Terminate
  | Rewind
deriving DecidableEq, Repr

/-- Abstraction of the deterministic pseudorandom generator (`StdRng` with
state type `S`), the oscillators, and machine float parsing.  Each field
corresponds to one primitive the Rust code calls; the generator state is
threaded exactly like `&mut rng` in the source. -/
structure Env (S : Type) where
  /-- `StdRng::seed_from_u64`. -/
  seedFrom : ℕ → S
  /-- `rng.gen::<bool>()`. -/
  nextBool : S → Bool × S
  /-- `rng.gen::<f32>()`, a value in `[0,1)`. -/
  nextUnit : S → ℚ × S
  /-- the index drawn by `slice.choose(&mut rng)` (reduced mod the slice
  length by `envChoose`). -/
  chooseIdx : S → ℕ × S
  /-- `rng.gen_range(lo..=hi)`. -/
  genRange : ℕ → ℕ → S → ℕ × S
  /-- number of notes returned by `rust_music_theory`'s diatonic
  `Scale::notes()` (8 in the library: seven degrees plus the octave). -/
  scaleLen : ℕ
  /-- melody oscillator: tonic pitch class, mode, scale-degree index, octave,
  sample index within the note ↦ sample value (the square signal scaled by
  0.5 at the frequency of that scale note). -/
  melodyWave : ℕ → MMode → ℕ → ℤ → ℕ → ℚ
  /-- chord oscillator: root pitch class, quality, extension, sample
  index ↦ averaged sum of the sine partials of the chord tones. -/
  chordTone : ℕ → ChordQuality → ChordNumber → ℕ → ℚ
  /-- bass oscillator: MIDI-like note, sample index within the current
  chord window ↦ `sin(time * freq * 2π)`. -/
  bassWave : ℕ → ℕ → ℚ
  /-- `str::parse::<f32>` (value abstracted; the pipeline only needs
  determinism and the sign of the result). -/
  parseF32 : RStr → Option ℚ

/-- `slice.choose(&mut rng)`: `none` iff the slice is empty, otherwise some
element of the slice. -/
def envChoose {S α : Type} (env : Env S) (l : List α) (s : S) : Option α × S :=
  let r := env.chooseIdx s
  (l.get? (r.1 % l.length), r.2)

/-- The arms of the `match` on `app_state.scale` in
`generate_audio_from_state` (src/gen.rs lines 262-276). -/
def scaleTable : List (RStr × ℕ) :=
  [("C".data, 0), ("C#".data, 1), ("D".data, 2), ("D#".data, 3),
   ("E".data, 4), ("F".data, 5), ("F#".data, 6), ("G".data, 7),
   ("G#".data, 8), ("A".data, 9), ("A#".data, 10), ("B".data, 11)]

/-- The `match` on `app_state.scale` in `generate_audio_from_state`,
encoded as a first-match lookup over its arms; unknown scales default
to C (index 0). -/
def scaleToRoot (scale : RStr) : ℕ :=
  ((scaleTable.find? fun p => p.1 = scale).map Prod.snd).getD 0

/-- Rust's saturating `f32 as u32` cast on an exact rational. -/
def ratToU32 (q : ℚ) : ℕ := min (Int.toNat ⌊q⌋) (2 ^ 32 - 1)

/-- Rust's wrapping `expr as usize` cast of an `i32` value on a 64-bit
target: negative values wrap around `2^64`. -/
def i32_as_usize (z : ℤ) : ℕ := (z % (2 : ℤ) ^ 64).toNat

/-- The octave-down transposition of `get_bass_line` (src/gen.rs lines
99-103, identical in src/bass.rs line 47): subtract 12 iff the root is at
least 12. -/
def bassNoteMidi (chord_root : ℕ) : ℕ :=
  if 12 ≤ chord_root then chord_root - 12 else chord_root

/-- `gen::get_bass_line` (src/gen.rs lines 78-113).  The `style`, `bpm` and
`seed` arguments are unused in the source as well. -/
def get_bass_line {S : Type} (env : Env S) (_style : RStr)
    (chord_root_notes : List ℕ) (samples_per_chord total_samples : ℕ)
    (_bpm : ℕ) (_seed : ℕ) : List ℚ :=
  if chord_root_notes.isEmpty ∨ samples_per_chord = 0 then
    List.replicate total_samples 0
  else
    (List.range total_samples).map fun i =>
      let current_chord_index := (i / samples_per_chord) % chord_root_notes.length
      let chord_root := chord_root_notes.getD current_chord_index 0
      env.bassWave (bassNoteMidi chord_root) (i % samples_per_chord) * (6 / 10)

/-- The named arms of the `match` in `progs::get_progression`
(src/progs.rs lines 245-262): (scale-degree offset, quality, extension)
per step of each progression. -/
def progressionTable : List (RStr × List (ℕ × ChordQuality × ChordNumber)) :=
  [("blues".data,
    [(0, .Major, .Triad), (5, .Major, .Triad), (7, .Major, .Triad), (5, .Major, .Triad)]),
   ("pop".data,
    [(0, .Major, .Triad), (7, .Major, .Triad), (9, .Minor, .Triad), (5, .Major, .Triad)]),
   ("jazz".data,
    [(2, .Minor, .Seventh), (7, .Dominant, .Seventh), (0, .Major, .Seventh)])]

/-- The `match prog_name.to_lowercase()` of `progs::get_progression`
(src/progs.rs lines 245-267) as a first-match lookup; any other name falls
back to the two-chord I-IV default. -/
def progressionEntries (prog_name : RStr) : List (ℕ × ChordQuality × ChordNumber) :=
  ((progressionTable.find? fun p => p.1 = asciiLower prog_name).map Prod.snd).getD
    [(0, .Major, .Triad), (5, .Major, .Triad)]

/-- `progs::generate_chord_samples` (src/progs.rs lines 135-176): builds
`(44100 * duration) as usize` samples of the summed-and-averaged chord
oscillator. -/
def generate_chord_samples {S : Type} (env : Env S) (root_pc : ℕ)
    (quality : ChordQuality) (number : ChordNumber) (duration_seconds : ℚ) : List ℚ :=
  let total_samples := Int.toNat ⌊(44100 : ℚ) * duration_seconds⌋
  (List.range total_samples).map (env.chordTone root_pc quality number)

/-- `progs::get_progression` (src/progs.rs lines 214-269): per-chord sample
buffers plus the MIDI-like root note `root + offset + 12 * 3` of each step. -/
def get_progression {S : Type} (env : Env S) (prog_name : RStr) (root : ℕ)
    (chord_duration : ℚ) : List (List ℚ) × List ℕ :=
  let entries := progressionEntries prog_name
  (entries.map fun ent =>
      generate_chord_samples env ((root + ent.1) % 12) ent.2.1 ent.2.2 chord_duration,
   entries.map fun ent => root + ent.1 + 12 * 3)

/-- `gen::play_progression` (src/gen.rs lines 28-40): concatenates the chord
buffers. -/
def play_progression {S : Type} (env : Env S) (prog_name : RStr) (root : ℕ)
    (chord_duration : ℚ) : List ℚ × List ℕ :=
  let pr := get_progression env prog_name root chord_duration
  (pr.1.flatten, pr.2)

/-- Iteration budget for the duration-building `while` loops.  With
`0 < seconds_per_quarter_note` the Rust loops add at least a sixteenth note
(`spqn / 4`) per iteration, so this fuel is never exhausted; the fuel only
makes the recursion structural.  (For `spqn ≤ 0` the Rust loop would not
terminate at all for a positive target.) -/
def durFuel (spqn target : ℚ) : ℕ :=
  if spqn ≤ 0 then 0 else Int.toNat ⌈target / (spqn / 4)⌉ + 1

/-- The `RhythmPattern::Medium` loop (src/melodies.rs lines 153-168):
50/50 quarter or eighth per step until the running sum reaches the target. -/
def mediumAux {S : Type} (env : Env S) (spqn target : ℚ) :
    ℕ → ℚ → S → List ℚ × S
  | 0, _, s => ([], s)
  | fuel + 1, dur_sum, s =>
    if dur_sum < target then
      let bs := env.nextBool s
      let actual_duration := if bs.1 then 1 * spqn else 0.5 * spqn
      let rest := mediumAux env spqn target fuel (dur_sum + actual_duration) bs.2
      (actual_duration :: rest.1, rest.2)
    else ([], s)

/-- The `RhythmPattern::Complex` loop (src/melodies.rs lines 169-187):
25% quarter / 50% eighth / 25% sixteenth per step. -/
def complexAux {S : Type} (env : Env S) (spqn target : ℚ) :
    ℕ → ℚ → S → List ℚ × S
  | 0, _, s => ([], s)
  | fuel + 1, dur_sum, s =>
    if dur_sum < target then
      let roll := env.nextUnit s
      let beat_multiplier : ℚ :=
        if roll.1 < 0.25 then 1 else if roll.1 < 0.75 then 0.5 else 0.25
      let actual_duration := beat_multiplier * spqn
      let rest := complexAux env spqn target fuel (dur_sum + actual_duration) roll.2
      (actual_duration :: rest.1, rest.2)
    else ([], s)

/-- The `RhythmPattern::Syncopated` loop (src/melodies.rs lines 188-223):
alternating on-beat (0.5 or 0.25 beat) / off-beat (1.0 or 0.75 beat) notes,
discarding a final note that would overshoot the target unless the list is
still empty.  `nonempty` tracks `!durations.is_empty()`. -/
def syncopatedAux {S : Type} (env : Env S) (spqn target : ℚ) :
    ℕ → ℚ → ℕ → Bool → S → List ℚ × S
  | 0, _, _, _, s => ([], s)
  | fuel + 1, dur_sum, i, nonempty, s =>
    if dur_sum < target then
      let bs := env.nextBool s
      let beat_multiplier : ℚ :=
        if i % 2 = 0 then (if bs.1 then 0.5 else 0.25) else (if bs.1 then 1 else 0.75)
      let actual_duration := beat_multiplier * spqn
      if target < dur_sum + actual_duration ∧ nonempty then ([], bs.2)
      else
        let rest :=
          syncopatedAux env spqn target fuel (dur_sum + actual_duration) (i + 1) true bs.2
        (actual_duration :: rest.1, rest.2)
    else ([], s)

/-- The duration-sequence dispatch of `generate_melody_samples`
(src/melodies.rs lines 141-224).  `Simple` is the closed form
`floor(duration / spqn)` quarter notes. -/
def buildDurations {S : Type} (env : Env S) (pattern : RhythmPattern)
    (spqn target : ℚ) (s : S) : List ℚ × S :=
  match pattern with
  | .Simple => (List.replicate (Int.toNat ⌊target / spqn⌋) spqn, s)
  | .Medium => mediumAux env spqn target (durFuel spqn target) 0 s
  | .Complex => complexAux env spqn target (durFuel spqn target) 0 s
  | .Syncopated => syncopatedAux env spqn target (durFuel spqn target) 0 0 false s

/-- The candidate list `possible_jumps` built for step `i` of the melodic
walk (src/melodies.rs lines 241-267): steps of ±1/±2 (pushed twice, after the
wrapping `as usize` cast and the `< len` filter), leaps of ±3/±4 (with the
signed bound check), and for the final note a bias of five extra root
candidates plus the fifth. -/
def possibleJumps (scale_len prev total_beats i : ℕ) : List ℕ :=
  (([-2, -1, 1, 2] : List ℤ).flatMap fun jump =>
    let new_idx := i32_as_usize ((prev : ℤ) + jump)
    if new_idx < scale_len then [new_idx, new_idx] else []) ++
  (([-4, -3, 3, 4] : List ℤ).flatMap fun jump =>
    let new_idx_signed := (prev : ℤ) + jump
    if 0 ≤ new_idx_signed ∧ new_idx_signed < (scale_len : ℤ) then
      [new_idx_signed.toNat]
    else []) ++
  (if i = total_beats - 1 then List.replicate 5 0 ++ [4] else [])

/-- The note-sequence walk of `generate_melody_samples` (src/melodies.rs
lines 226-287), producing for each beat the chosen scale-degree index and the
octave to play it in.  The first note is chosen from root/fifth; later notes
from `possibleJumps` with `unwrap_or(&0)`; each non-first note has a 5%
chance (one `gen::<f32>` draw, then one `gen::<bool>` draw) to shift an
octave.  Recursion is structural on the number of remaining beats. -/
def melodyWalkAux {S : Type} (env : Env S) (scale_len total_beats : ℕ)
    (octave : ℤ) : ℕ → ℕ → ℕ → S → List (ℕ × ℤ) × S
  | 0, _, _, s => ([], s)
  | remaining + 1, i, prev, s =>
    if i = 0 then
      let c := envChoose env [0, 4] s
      let prev1 := c.1.getD 0
      let rest := melodyWalkAux env scale_len total_beats octave remaining (i + 1) prev1 c.2
      ((prev1, octave) :: rest.1, rest.2)
    else
      let c := envChoose env (possibleJumps scale_len prev total_beats i) s
      let prev1 := c.1.getD 0
      let u := env.nextUnit c.2
      let ob :=
        if u.1 < 0.05 then
          let b := env.nextBool u.2
          ((if b.1 then octave + 1 else octave - 1), b.2)
        else (octave, u.2)
      let rest := melodyWalkAux env scale_len total_beats octave remaining (i + 1) prev1 ob.2
      ((prev1, ob.1) :: rest.1, rest.2)

/-- The full melodic walk over `total_beats` beats, starting at beat 0 with
`prev_note_idx = 0`. -/
def melodyWalk {S : Type} (env : Env S) (scale_len total_beats : ℕ)
    (octave : ℤ) (s : S) : List (ℕ × ℤ) × S :=
  melodyWalkAux env scale_len total_beats octave total_beats 0 0 s

/-- The rendering loop of `generate_melody_samples` (src/melodies.rs lines
290-314): each (note, duration) pair becomes `(44100 * duration) as usize`
oscillator samples; with `articulation = 1.0` the silent tail is empty but
the computation is kept as in the source. -/
def renderMelody {S : Type} (env : Env S) (root_pc : ℕ) (mode : MMode) :
    List ((ℕ × ℤ) × ℚ) → List ℚ
  | [] => []
  | ((idx, oct), duration) :: rest =>
    let samples_for_note := Int.toNat ⌊(44100 : ℚ) * duration⌋
    let sound_samples := Int.toNat ⌊(samples_for_note : ℚ) * 1⌋
    let gap_samples := samples_for_note - sound_samples
    ((List.range sound_samples).map fun k => env.melodyWave root_pc mode idx oct k)
      ++ List.replicate gap_samples 0
      ++ renderMelody env root_pc mode rest

/-- `melodies::generate_melody_samples` (src/melodies.rs lines 114-317):
seed the generator, build the duration sequence, walk the scale degrees with
the same generator, and render. -/
def generate_melody_samples {S : Type} (env : Env S) (root_pc : ℕ)
    (mode : MMode) (octave : ℤ) (pattern : RhythmPattern)
    (duration_seconds : ℕ) (seconds_per_quarter_note : ℚ) (seed : ℕ) : List ℚ :=
  let s0 := env.seedFrom seed
  let durs :=
    buildDurations env pattern seconds_per_quarter_note (duration_seconds : ℚ) s0
  let walked := melodyWalk env env.scaleLen durs.1.length octave durs.2
  renderMelody env root_pc mode (walked.1.zip durs.1)

/-- `melodies::get_melody` (src/melodies.rs lines 335-399): style selects
mode, rhythm pattern and octave; jazz draws one boolean from a fresh
generator seeded with the same seed to pick Dorian or Mixolydian. -/
def get_melody {S : Type} (env : Env S) (style : RStr) (root : ℕ)
    (duration : ℕ) (seconds_per_quarter_note : ℚ) (seed : ℕ) : List ℚ :=
  let rng0 := env.seedFrom seed
  if asciiLower style = "blues".data then
    generate_melody_samples env root .Ionian 3 .Syncopated duration
      seconds_per_quarter_note seed
  else if asciiLower style = "pop".data then
    generate_melody_samples env root .Ionian 3 .Medium duration
      seconds_per_quarter_note seed
  else if asciiLower style = "jazz".data then
    let b := env.nextBool rng0
    generate_melody_samples env root (if b.1 then .Dorian else .Mixolydian) 3
      .Complex duration seconds_per_quarter_note seed
  else
    generate_melody_samples env root .Ionian 3 .Simple duration
      seconds_per_quarter_note seed

/-- The mixing loop of `generate_audio_from_state` (src/gen.rs lines
331-344): for each index below the melody length, sum the gain-scaled melody
sample, the cyclically indexed chord sample, and the bass sample. -/
def mixBuffers (melody chord_sequence bass_line : List ℚ) : List ℚ :=
  (List.range melody.length).map fun i =>
    let chord_sample_val :=
      if 0 < chord_sequence.length then
        chord_sequence.getD (i % chord_sequence.length) 0 * (1 / 2)
      else 0
    let melody_sample_val := melody.getD i 0 * (1 / 8)
    let bass_sample_val := bass_line.getD i 0 * (6 / 10)
    melody_sample_val + chord_sample_val + bass_sample_val

/-- The normalization step of `generate_audio_from_state` (src/gen.rs lines
345-354): find the peak absolute amplitude and divide every sample by it only
when it exceeds 1. -/
def normalizeBuffer (buf : List ℚ) : List ℚ :=
  if buf.isEmpty then buf
  else
    let max_abs_val := buf.foldl (fun m v => max m |v|) 0
    if 1 < max_abs_val then buf.map (· / max_abs_val) else buf

/-- `duration_minutes` in `generate_audio_from_state` (src/gen.rs lines
277-283): first whitespace token of the length string (default "5"), parsed
as `f32` with default 5.0. -/
def durMinutes {S : Type} (env : Env S) (length : RStr) : ℚ :=
  match (splitWhitespace length).head? with
  | some tok => (env.parseF32 tok).getD 5
  | none => (env.parseF32 "5".data).getD 5

/-- `duration_seconds = duration_minutes * 60.0`. -/
def durationSecondsOf {S : Type} (env : Env S) (length : RStr) : ℚ :=
  durMinutes env length * 60

/-- The seed actually used (src/gen.rs lines 288-291): the parsed `u64`
field, or a freshly drawn random value (`entropy` models the one call to
`rand::random::<u64>()`). -/
def actualSeedOf (seed_field : RStr) (entropy : ℕ) : ℕ :=
  (parseU64 seed_field).getD entropy

/-- The bpm selection (src/gen.rs lines 294-298): the parsed value when
non-empty and positive, otherwise `rng.gen_range(80..=160)`. -/
def bpmChoose {S : Type} (env : Env S) (bpm_str : RStr) (s : S) : ℕ × S :=
  match parseU32 bpm_str with
  | some val => if bpm_str ≠ [] ∧ 0 < val then (val, s) else env.genRange 80 160 s
  | none => env.genRange 80 160 s

/-- The progression-name dispatch on the style string in
`generate_audio_from_state` (src/gen.rs lines 313-318). -/
def progNameOf (style : RStr) : RStr :=
  if asciiLower style = "blues".data then "blues".data
  else if asciiLower style = "pop".data then "pop".data
  else if asciiLower style = "jazz".data then "jazz".data
  else "default".data

/-- All intermediate buffers of one run of `generate_audio_from_state`. -/
structure GenOut where
  melody : List ℚ
  chordSeq : List ℚ
  chordRoots : List ℕ
  bass : List ℚ
  premix : List ℚ
  mixed : List ℚ
  actualSeed : ℕ

/-- The body of `gen::generate_audio_from_state` (src/gen.rs lines 259-357)
as a function of the five parameter strings and the already-resolved seed,
recording every intermediate buffer. -/
def genPipelineCore {S : Type} (env : Env S) (seedv : ℕ)
    (scale style bpm_str length : RStr) : GenOut :=
  let root_note := scaleToRoot scale
  let duration_seconds := durationSecondsOf env length
  let s0 := env.seedFrom seedv
  let bpmS := bpmChoose env bpm_str s0
  let bpm := bpmS.1
  let sec_per_beat : ℚ := 60 / (bpm : ℚ)
  let nb := env.genRange 2 4 bpmS.2
  let num_beats_per_chord := nb.1
  let chord_duration : ℚ := (num_beats_per_chord : ℚ) * sec_per_beat
  let samples_per_chord := Int.toNat ⌊chord_duration * 44100⌋
  let melody := get_melody env style root_note (ratToU32 duration_seconds)
    sec_per_beat seedv
  let pp := play_progression env (progNameOf style) root_note chord_duration
  let chord_sequence := pp.1
  let chord_root_notes := pp.2
  let target_len := melody.length
  let bass_line := get_bass_line env style chord_root_notes samples_per_chord
    target_len bpm seedv
  let premix := mixBuffers melody chord_sequence bass_line
  ⟨melody, chord_sequence, chord_root_notes, bass_line, premix,
   normalizeBuffer premix, seedv⟩

/-- One run of `generate_audio_from_state` on an `AppState`: the seed field
is parsed, falling back to the nondeterministic `entropy` draw. -/
def genPipeline {S : Type} (env : Env S) (entropy : ℕ) (app : AppState) : GenOut :=
  genPipelineCore env (actualSeedOf app.seed entropy) app.scale app.style app.bpm app.length

/-- `gen::generate_audio_from_state`: the returned triple
(mixed samples, sample rate, actual seed). -/
def generate_audio_from_state {S : Type} (env : Env S) (entropy : ℕ)
    (app : AppState) : List ℚ × ℕ × ℕ :=
  ((genPipeline env entropy app).mixed, 44100, (genPipeline env entropy app).actualSeed)

/-- The bpm actually used by a pipeline run (projection of the let chain of
`genPipelineCore`). -/
def bpmOf {S : Type} (env : Env S) (seedv : ℕ) (bpm_str : RStr) : ℕ × S :=
  bpmChoose env bpm_str (env.seedFrom seedv)

/-- The chord duration computed by a pipeline run (projection of the let
chain of `genPipelineCore`). -/
def chordDurationOf {S : Type} (env : Env S) (seedv : ℕ) (bpm_str : RStr) : ℚ :=
  ((env.genRange 2 4 (bpmOf env seedv bpm_str).2).1 : ℚ) *
    (60 / ((bpmOf env seedv bpm_str).1 : ℚ))

/-- The playback-relevant state of `gen::MusicPlayer` (src/gen.rs lines
158-168).  `Instant`s are wall-clock times measured in audio samples
(the code converts elapsed seconds to samples with the factor 44100). -/
structure PlayerState where
  audio_loaded : Bool
  total_samples : ℕ
  samples_played_at_pause : ℕ
  playback_start_time : Option ℕ
  sink_paused : Bool
  should_terminate : Bool
deriving DecidableEq, Repr

/-- One event of the service loop: a drained control command, or one
progress-reporting iteration, each stamped with the wall-clock time (in
samples) at which it runs. -/
inductive ServiceEvent where
  | cmd (c : MusicControl) (t : ℕ)
  | tick (t : ℕ)
deriving DecidableEq, Repr

/-- The wall-clock stamp of an event. -/
def ServiceEvent.time : ServiceEvent → ℕ
  | .cmd _ t => t
  | .tick t => t

/-- `current_display_samples` as computed by the progress-reporting step
(src/gen.rs lines 469-475): accumulated paused samples plus, if playing,
elapsed samples since the last (re)start, clamped to the total. -/
def displayValue (st : PlayerState) (t : ℕ) : ℕ :=
  let base := st.samples_played_at_pause +
    (if ¬st.sink_paused ∧ st.playback_start_time.isSome then
      t - st.playback_start_time.getD 0
    else 0)
  min base st.total_samples

/-- The command handling of the service loop (src/gen.rs lines 409-460),
returning the new state and the snapshot emitted by `Rewind` (the only
command that sends one). -/
def handleCommand (c : MusicControl) (t : ℕ) (st : PlayerState) :
    PlayerState × Option ℕ :=
  match c with
  | .Pause =>
    let st1 :=
      if ¬st.sink_paused ∧ st.playback_start_time.isSome then
        { st with
          samples_played_at_pause :=
            st.samples_played_at_pause + (t - st.playback_start_time.getD 0),
          playback_start_time := none }
      else st
    ({ st1 with sink_paused := true }, none)
  | .Resume =>
    (if st.sink_paused ∧ 0 < st.total_samples then
      { st with playback_start_time := some t, sink_paused := false }
    else st, none)
  | .Rewind =>
    if st.audio_loaded then
      ({ st with samples_played_at_pause := 0, playback_start_time := some t,
                 sink_paused := false }, some 0)
    else (st, none)
  | .Terminate =>
    ({ st with should_terminate := true, sink_paused := true }, none)

/-- The progress-reporting step (src/gen.rs lines 467-491): when a song is
loaded and the service is not terminating, emit the clamped display value and
auto-pause once it reaches the total. -/
def progressTick (t : ℕ) (st : PlayerState) : PlayerState × Option ℕ :=
  if 0 < st.total_samples ∧ ¬st.should_terminate then
    let disp := displayValue st t
    let st1 :=
      if st.total_samples ≤ disp ∧ ¬st.sink_paused then
        { st with sink_paused := true, playback_start_time := none,
                  samples_played_at_pause := st.total_samples }
      else st
    (st1, some disp)
  else (st, none)

/-- The service loop (src/gen.rs lines 406-493) over a finite schedule of
events, collecting the emitted `current_samples` values.  Once
`should_terminate` is set no further event is processed (`break
'service_loop'`). -/
def runService : PlayerState → List ServiceEvent → PlayerState × List ℕ
  | st, [] => (st, [])
  | st, e :: rest =>
    if st.should_terminate then (st, [])
    else
      let step :=
        match e with
        | .cmd c t => handleCommand c t st
        | .tick t => progressTick t st
      let next := runService step.1 rest
      (next.1, step.2.toList ++ next.2)

/-- The emitted `ProgressSnapshot.current_samples` values of a schedule. -/
def serviceEmits (st : PlayerState) (evs : List ServiceEvent) : List ℕ :=
  (runService st evs).2

/-- Any recorded playback start instant lies in the past. -/
def startLe (st : PlayerState) (t0 : ℕ) : Prop :=
  ∀ u, st.playback_start_time = some u → u ≤ t0

/-- Boolean check that event stamps are non-decreasing from `t0`. -/
def timesOKb (t0 : ℕ) : List ServiceEvent → Bool
  | [] => true
  | e :: rest => decide (t0 ≤ e.time) && timesOKb e.time rest

/-- Event stamps are non-decreasing and start no earlier than `t0`
(wall-clock monotonicity). -/
def timesOK (t0 : ℕ) (evs : List ServiceEvent) : Prop :=
  timesOKb t0 evs = true

/-- No `Rewind` command occurs in the schedule (one playback session). -/
def noRewind (evs : List ServiceEvent) : Prop :=
  ∀ t, ServiceEvent.cmd MusicControl.Rewind t ∉ evs

instance (st : PlayerState) (t0 : ℕ) : Decidable (startLe st t0) := by
  unfold startLe
  cases h : st.playback_start_time with
  | none => exact .isTrue (by simp [h])
  | some u =>
    exact decidable_of_iff (u ≤ t0) (by constructor <;> simp_all)

instance (t0 : ℕ) (evs : List ServiceEvent) : Decidable (timesOK t0 evs) :=
  inferInstanceAs (Decidable (timesOKb t0 evs = true))

/-- Detects a `Rewind` command event. -/
def isRewindCmd : ServiceEvent → Bool
  | .cmd .Rewind _ => true
  | _ => false

instance (evs : List ServiceEvent) : Decidable (noRewind evs) := by
  unfold noRewind
  exact decidable_of_iff (∀ e ∈ evs, isRewindCmd e = false)
    (by constructor
        · intro h t hmem
          have := h _ hmem
          simp [isRewindCmd] at this
        · intro h e hmem
          cases e with
          | tick t => simp [isRewindCmd]
          | cmd c t =>
            cases c <;> simp [isRewindCmd]
            exact h t hmem)

/-- A concrete executable instance of `Env` (counter-based generator state),
used to evaluate the pipeline at concrete inputs. -/
def testEnv : Env ℕ where
  seedFrom := fun n => n
  nextBool := fun s => (decide (s % 2 = 0), s + 1)
  nextUnit := fun s => (1 / 2, s + 1)
  chooseIdx := fun s => (s, s + 1)
  genRange := fun lo _ s => (lo, s + 1)
  scaleLen := 8
  melodyWave := fun _ _ _ _ _ => 1 / 4
  chordTone := fun _ _ _ _ => 1 / 3
  bassWave := fun _ _ => 1 / 5
  parseF32 := fun t => if t = "0".data then some 0 else none

/-- A tiny concrete `AppState` whose seed is explicit and whose duration is
zero minutes, keeping concrete evaluation small. -/
def testApp : AppState :=
  { scale := "C".data, style := "waltz".data, bpm := "4000000".data,
    length := "0 min".data, seed := "7".data, is_random := false,
    song_loader_input := [] }

/-! ## Theorems -/

/-- C6: for every chord-root note `r` (a `u8`, hence `r < 256`), the
transposed bass note is `r - 12` exactly when `r ≥ 12` and `r` unchanged
when `r < 12`, and the result stays inside the `u8` range (the representable
floor is never crossed). -/
theorem bass_octave_clamp (r : ℕ) (h : r < 256) :
    (12 ≤ r → bassNoteMidi r = r - 12) ∧ (r < 12 → bassNoteMidi r = r) ∧
    bassNoteMidi r < 256 := by
  unfold bassNoteMidi
  split <;> omega

/-- Witness for `bass_octave_clamp` at the concrete root 60 (middle C). -/
theorem bass_octave_clamp_witness :
    (60 : ℕ) < 256 ∧
    ((12 ≤ (60 : ℕ) → bassNoteMidi 60 = 60 - 12) ∧
     ((60 : ℕ) < 12 → bassNoteMidi 60 = 60) ∧ bassNoteMidi 60 < 256) :=
  ⟨by norm_num, bass_octave_clamp 60 (by norm_num)⟩

/-- C7: `get_bass_line` always returns exactly `total_samples` samples, and
degenerates to a zero-filled buffer of that length when the chord-root list
is empty or `samples_per_chord` is zero. -/
theorem bass_line_total_length {S : Type} (env : Env S) (style : RStr)
    (chord_root_notes : List ℕ) (samples_per_chord total_samples bpm seed : ℕ) :
    (get_bass_line env style chord_root_notes samples_per_chord total_samples
        bpm seed).length = total_samples ∧
    (chord_root_notes = [] ∨ samples_per_chord = 0 →
      get_bass_line env style chord_root_notes samples_per_chord total_samples
          bpm seed = List.replicate total_samples 0) := by
  constructor
  · unfold get_bass_line
    split
    · simp
    · simp
  · intro h
    unfold get_bass_line
    rw [if_pos]
    rcases h with h | h
    · left
      simp [h]
    · right
      exact h

/-- Witness for `bass_line_total_length` with an empty chord-root list,
discharging the degenerate-case hypothesis concretely. -/
theorem bass_line_total_length_witness :
    (get_bass_line testEnv "pop".data [] 10 3 120 7).length = 3 ∧
    get_bass_line testEnv "pop".data [] 10 3 120 7 = List.replicate 3 0 :=
  ⟨(bass_line_total_length testEnv "pop".data [] 10 3 120 7).1,
   (bass_line_total_length testEnv "pop".data [] 10 3 120 7).2 (Or.inl rfl)⟩

/-- Every scale name maps to a pitch-class index at most 11. -/
lemma scaleToRoot_le_eleven (scale : RStr) : scaleToRoot scale ≤ 11 := by
  unfold scaleToRoot
  cases h : scaleTable.find? fun p => p.1 = scale with
  | none => simp
  | some p =>
    have hmem := List.mem_of_find?_eq_some h
    fin_cases hmem <;> simp

/-- Every step offset of every progression table is one of 0, 2, 5, 7, 9. -/
lemma progressionEntries_off_mem (prog_name : RStr) :
    ∀ ent ∈ progressionEntries prog_name, ent.1 ∈ ([0, 2, 5, 7, 9] : List ℕ) := by
  have key : ∀ x ∈ progressionTable, ∀ e ∈ x.2, e.1 ∈ ([0, 2, 5, 7, 9] : List ℕ) := by
    decide
  unfold progressionEntries
  cases h : progressionTable.find? fun p => p.1 = asciiLower prog_name with
  | none =>
    intro ent hent
    fin_cases hent <;> decide
  | some p =>
    have hmem := List.mem_of_find?_eq_some h
    intro ent hent
    simp only [Option.map_some', Option.getD_some] at hent
    exact key p hmem ent hent

/-- Root notes returned by `get_progression` are `root + off + 36` with
`off ∈ {0,2,5,7,9}`; for `root ≤ 11` they lie in the band `[36, 56]`, so the
bass octave transposition always fires and subtracts exactly 12. -/
lemma get_progression_roots_spec {S : Type} (env : Env S) (prog_name : RStr)
    (root : ℕ) (chord_duration : ℚ) (hroot : root ≤ 11) :
    ∀ r ∈ (get_progression env prog_name root chord_duration).2,
      (∃ off ∈ ([0, 2, 5, 7, 9] : List ℕ), r = root + off + 36) ∧
      36 ≤ r ∧ r ≤ 56 ∧ 12 ≤ r ∧ bassNoteMidi r = r - 12 := by
  intro r hr
  unfold get_progression at hr
  simp only [List.mem_map] at hr
  obtain ⟨ent, hent, hr⟩ := hr
  have hoff := progressionEntries_off_mem prog_name ent hent
  have hoff9 : ent.1 ≤ 9 := by
    simp only [List.mem_cons, List.not_mem_nil, or_false] at hoff
    omega
  refine ⟨⟨ent.1, hoff, by omega⟩, by omega, by omega, by omega, ?_⟩
  unfold bassNoteMidi
  rw [if_pos (by omega)]

/-- The chord-root list assembled by the pipeline is exactly the root-note
list of `get_progression` for the dispatched progression name. -/
lemma genPipeline_chordRoots {S : Type} (env : Env S) (entropy : ℕ)
    (app : AppState) :
    ∃ cd : ℚ, (genPipeline env entropy app).chordRoots =
      (get_progression env (progNameOf app.style) (scaleToRoot app.scale) cd).2 := by
  exact ⟨chordDurationOf env (actualSeedOf app.seed entropy) app.bpm, rfl⟩

/-- C10: every chord-root note returned by `get_progression` equals
`root + offset + 36` with `offset ∈ {0,2,5,7,9}`, hence lies in `[36, 56]`
and in particular is at least 12; consequently, in the integrated pipeline
the untransposed branch of the bass octave clamp is unreachable and the bass
note is always the chord root minus 12. -/
theorem progression_roots_octave_band {S : Type} (env : Env S)
    (prog_name : RStr) (root : ℕ) (chord_duration : ℚ) (hroot : root ≤ 11)
    (entropy : ℕ) (app : AppState) :
    (∀ r ∈ (get_progression env prog_name root chord_duration).2,
      (∃ off ∈ ([0, 2, 5, 7, 9] : List ℕ), r = root + off + 36) ∧
      36 ≤ r ∧ r ≤ 56 ∧ 12 ≤ r ∧ bassNoteMidi r = r - 12) ∧
    (∀ r ∈ (genPipeline env entropy app).chordRoots,
      12 ≤ r ∧ bassNoteMidi r = r - 12) := by
  refine ⟨get_progression_roots_spec env prog_name root chord_duration hroot, ?_⟩
  intro r hr
  obtain ⟨cd, hcd⟩ := genPipeline_chordRoots env entropy app
  rw [hcd] at hr
  have := get_progression_roots_spec env (progNameOf app.style)
    (scaleToRoot app.scale) cd (scaleToRoot_le_eleven app.scale) r hr
  exact ⟨this.2.2.2.1, this.2.2.2.2⟩

/-- Witness for `progression_roots_octave_band`: the pop progression rooted
at C (root 0), and the pipeline roots of `testApp`. -/
theorem progression_roots_octave_band_witness :
    (∀ r ∈ (get_progression testEnv "pop".data 0 1).2,
      (∃ off ∈ ([0, 2, 5, 7, 9] : List ℕ), r = 0 + off + 36) ∧
      36 ≤ r ∧ r ≤ 56 ∧ 12 ≤ r ∧ bassNoteMidi r = r - 12) ∧
    (∀ r ∈ (genPipeline testEnv 3 testApp).chordRoots,
      12 ≤ r ∧ bassNoteMidi r = r - 12) :=
  progression_roots_octave_band testEnv "pop".data 0 1 (by norm_num) 3 testApp


/-- Every duration emitted by the Medium loop is a quarter or an eighth. -/
lemma mediumAux_mem {S : Type} (env : Env S) (spqn target : ℚ) :
    ∀ fuel dur_sum s, ∀ d ∈ (mediumAux env spqn target fuel dur_sum s).1,
      d = 1 * spqn ∨ d = 0.5 * spqn := by
  intro fuel
  induction fuel with
  | zero =>
    intro dur_sum s d hd
    simp [mediumAux] at hd
  | succ n ih =>
    intro dur_sum s d hd
    rw [mediumAux] at hd
    simp only [] at hd
    split at hd
    · simp only [List.mem_cons] at hd
      rcases hd with rfl | hd
      · split <;> [left; right] <;> rfl
      · exact ih _ _ d hd
    · simp at hd

/-- Every duration emitted by the Complex loop is a quarter, an eighth, or a
sixteenth. -/
lemma complexAux_mem {S : Type} (env : Env S) (spqn target : ℚ) :
    ∀ fuel dur_sum s, ∀ d ∈ (complexAux env spqn target fuel dur_sum s).1,
      d = 1 * spqn ∨ d = 0.5 * spqn ∨ d = 0.25 * spqn := by
  intro fuel
  induction fuel with
  | zero =>
    intro dur_sum s d hd
    simp [complexAux] at hd
  | succ n ih =>
    intro dur_sum s d hd
    rw [complexAux] at hd
    simp only [] at hd
    split at hd
    · simp only [List.mem_cons] at hd
      rcases hd with rfl | hd
      · split
        · left; rfl
        · split
          · right; left; rfl
          · right; right; rfl
      · exact ih _ _ d hd
    · simp at hd

/-- Every duration emitted by the Syncopated loop is a half-beat,
quarter-beat, full beat, or three-quarter beat. -/
lemma syncopatedAux_mem {S : Type} (env : Env S) (spqn target : ℚ) :
    ∀ fuel dur_sum i nonempty s,
      ∀ d ∈ (syncopatedAux env spqn target fuel dur_sum i nonempty s).1,
        d = 0.5 * spqn ∨ d = 0.25 * spqn ∨ d = 1 * spqn ∨ d = 0.75 * spqn := by
  intro fuel
  induction fuel with
  | zero =>
    intro dur_sum i nonempty s d hd
    simp [syncopatedAux] at hd
  | succ n ih =>
    intro dur_sum i nonempty s d hd
    rw [syncopatedAux] at hd
    simp only [] at hd
    split at hd
    · split at hd
      · split at hd
        · split at hd
          · simp at hd
          · rw [List.mem_cons] at hd
            rcases hd with rfl | hd
            · norm_num
            · exact ih _ _ _ _ d hd
        · split at hd
          · simp at hd
          · rw [List.mem_cons] at hd
            rcases hd with rfl | hd
            · norm_num
            · exact ih _ _ _ _ d hd
      · split at hd
        · split at hd
          · simp at hd
          · rw [List.mem_cons] at hd
            rcases hd with rfl | hd
            · norm_num
            · exact ih _ _ _ _ d hd
        · split at hd
          · simp at hd
          · rw [List.mem_cons] at hd
            rcases hd with rfl | hd
            · norm_num
            · exact ih _ _ _ _ d hd
    · simp at hd

/-- Every duration of every rhythm pattern is `m * spqn` with
`m ∈ {1, 1/2, 1/4, 3/4}`. -/
lemma buildDurations_mult {S : Type} (env : Env S) (pattern : RhythmPattern)
    (spqn target : ℚ) (s : S) :
    ∀ d ∈ (buildDurations env pattern spqn target s).1,
      ∃ m : ℚ, (m = 1 ∨ m = 1 / 2 ∨ m = 1 / 4 ∨ m = 3 / 4) ∧ d = m * spqn := by
  intro d hd
  cases pattern with
  | Simple =>
    simp only [buildDurations, List.mem_replicate] at hd
    exact ⟨1, by norm_num, by rw [hd.2]; ring⟩
  | Medium =>
    rcases mediumAux_mem env spqn target _ _ _ d hd with h | h
    · exact ⟨1, by norm_num, by rw [h]⟩
    · exact ⟨1 / 2, by norm_num, by rw [h]; norm_num⟩
  | Complex =>
    rcases complexAux_mem env spqn target _ _ _ d hd with h | h | h
    · exact ⟨1, by norm_num, by rw [h]⟩
    · exact ⟨1 / 2, by norm_num, by rw [h]; norm_num⟩
    · exact ⟨1 / 4, by norm_num, by rw [h]; norm_num⟩
  | Syncopated =>
    rcases syncopatedAux_mem env spqn target _ _ _ _ _ d hd with h | h | h | h
    · exact ⟨1 / 2, by norm_num, by rw [h]; norm_num⟩
    · exact ⟨1 / 4, by norm_num, by rw [h]; norm_num⟩
    · exact ⟨1, by norm_num, by rw [h]⟩
    · exact ⟨3 / 4, by norm_num, by rw [h]; norm_num⟩

/-- C8 counterexample: the source `RhythmPattern` enumeration consists of
exactly the four tags Simple, Medium, Complex, Syncopated — there is no
fifth (Swung) tag anywhere in the type. -/
theorem rhythm_pattern_no_swung_counterexample :
    Fintype.card RhythmPattern = 4 ∧
    (Finset.univ : Finset RhythmPattern) =
      {RhythmPattern.Simple, RhythmPattern.Medium,
       RhythmPattern.Complex, RhythmPattern.Syncopated} := by
  constructor <;> decide

/-- C8 amended: the melody generator supports exactly four rhythm-pattern
tags (Simple, Medium, Complex, Syncopated) and no Swung tag; every generated
note duration is 1, 1/2, 1/4 or 3/4 quarter-beats — never a 0.66/0.34-beat
pair — and the overshoot guard belongs to the Syncopated pattern. -/
theorem rhythm_patterns_exactly_four {S : Type} (env : Env S)
    (pattern : RhythmPattern) (spqn target : ℚ) (s : S) (hspqn : spqn ≠ 0) :
    Fintype.card RhythmPattern = 4 ∧
    ∀ d ∈ (buildDurations env pattern spqn target s).1,
      (∃ m : ℚ, (m = 1 ∨ m = 1 / 2 ∨ m = 1 / 4 ∨ m = 3 / 4) ∧ d = m * spqn) ∧
      d ≠ 66 / 100 * spqn ∧ d ≠ 34 / 100 * spqn := by
  refine ⟨by decide, ?_⟩
  intro d hd
  obtain ⟨m, hm, rfl⟩ := buildDurations_mult env pattern spqn target s d hd
  refine ⟨⟨m, hm, rfl⟩, ?_, ?_⟩ <;>
    · intro hcontra
      have := mul_right_cancel₀ hspqn hcontra
      rcases hm with rfl | rfl | rfl | rfl <;> norm_num at this

/-- Witness for `rhythm_patterns_exactly_four` with the Simple pattern at
spqn 1, target 2 (two quarter-note durations, both equal to 1). -/
theorem rhythm_patterns_exactly_four_witness :
    Fintype.card RhythmPattern = 4 ∧
    ((1 : ℚ) ∈ (buildDurations testEnv .Simple 1 2 0).1 ∧
      ((∃ m : ℚ, (m = 1 ∨ m = 1 / 2 ∨ m = 1 / 4 ∨ m = 3 / 4) ∧ (1 : ℚ) = m * 1) ∧
       (1 : ℚ) ≠ 66 / 100 * 1 ∧ (1 : ℚ) ≠ 34 / 100 * 1)) :=
  ⟨(rhythm_patterns_exactly_four testEnv .Simple 1 2 0 (by norm_num)).1,
   by norm_num [buildDurations],
   (rhythm_patterns_exactly_four testEnv .Simple 1 2 0 (by norm_num)).2 1
     (by norm_num [buildDurations])⟩

/-- A front match survives extending the text to the right. -/
lemma leadMatch_append (n : RStr) :
    ∀ x y, leadMatch n x = true → leadMatch n (x ++ y) = true := by
  induction n with
  | nil => intro x y _; rfl
  | cons a as ih =>
    intro x y h
    cases x with
    | nil => simp [leadMatch] at h
    | cons c cs =>
      simp only [leadMatch, Bool.and_eq_true] at h ⊢
      exact ⟨h.1, ih cs y h.2⟩

/-- A substring occurrence survives extending the text to the right. -/
lemma hasRun_append_left (n : RStr) :
    ∀ x y, hasRun n x = true → hasRun n (x ++ y) = true := by
  intro x
  induction x with
  | nil =>
    intro y h
    simp only [hasRun, List.isEmpty_iff] at h
    subst h
    cases y with
    | nil => rfl
    | cons c cs => simp [hasRun, leadMatch]
  | cons c cs ih =>
    intro y h
    simp only [hasRun, Bool.or_eq_true] at h ⊢
    rcases h with h | h
    · exact Or.inl (leadMatch_append n _ y h)
    · exact Or.inr (ih y h)

/-- A substring occurrence survives extending the text to the left. -/
lemma hasRun_append_right (n : RStr) :
    ∀ x y, hasRun n y = true → hasRun n (x ++ y) = true := by
  intro x
  induction x with
  | nil => intro y h; exact h
  | cons c cs ih =>
    intro y h
    simp only [List.cons_append, hasRun, Bool.or_eq_true]
    exact Or.inr (ih y h)

/-- Every song-id error message contains the offending field's name and the
expected-format hint. -/
lemma renderSongIdError_names_field (e : SongIdError) :
    hasRun (songIdErrorField e) (renderSongIdError e) = true ∧
    hasRun songIdFormatHint (renderSongIdError e) = true := by
  cases e with
  | wrongPartCount n =>
    simp only [renderSongIdError, songIdErrorField, songIdFormatHint]
    exact ⟨hasRun_append_left _ _ _ (hasRun_append_left _ _ _ (by decide)),
           hasRun_append_right _ _ _ (by decide)⟩
  | invalidBpm s =>
    simp only [renderSongIdError, songIdErrorField, songIdFormatHint]
    exact ⟨hasRun_append_left _ _ _ (hasRun_append_left _ _ _ (by decide)),
           hasRun_append_right _ _ _ (by decide)⟩
  | invalidLength s =>
    simp only [renderSongIdError, songIdErrorField, songIdFormatHint]
    exact ⟨hasRun_append_left _ _ _ (hasRun_append_left _ _ _ (by decide)),
           hasRun_append_right _ _ _ (by decide)⟩
  | invalidSeed s =>
    simp only [renderSongIdError, songIdErrorField, songIdFormatHint]
    exact ⟨hasRun_append_left _ _ _ (hasRun_append_left _ _ _ (by decide)),
           hasRun_append_right _ _ _ (by decide)⟩

/-- C5: `parse_song_id_to_app_state` succeeds exactly when the id splits on
`-` into five fields with Bpm a valid `u32` when non-empty, LengthMinutes a
valid `u32`, and Seed a valid `u64` when non-empty; on success the state is
assembled wholly from the five fields (length stored as `<n> min`, the rest
defaulted) and on failure the message names the offending field and the
expected format, with no state produced. -/
theorem parse_song_id_spec (id_string : RStr) :
    ((parse_song_id_to_app_state id_string).isOk = true ↔ songIdOkCond id_string) ∧
    (∀ st, parse_song_id_to_app_state id_string = .ok st →
      ∃ m, parseU32 ((splitOnChar (Char.ofNat 45) id_string).getD 3 []) = some m ∧
        st = { scale := (splitOnChar (Char.ofNat 45) id_string).getD 0 [],
               style := (splitOnChar (Char.ofNat 45) id_string).getD 1 [],
               bpm := (splitOnChar (Char.ofNat 45) id_string).getD 2 [],
               length := natToChars m ++ " min".data,
               seed := (splitOnChar (Char.ofNat 45) id_string).getD 4 [],
               is_random := false,
               song_loader_input := [] }) ∧
    (∀ msg, parse_song_id_to_app_state id_string = .error msg →
      ∃ e : SongIdError, msg = renderSongIdError e ∧
        hasRun (songIdErrorField e) msg = true ∧
        hasRun songIdFormatHint msg = true) := by
  unfold parse_song_id_to_app_state songIdOkCond
  simp only []
  by_cases h5 : (splitOnChar (Char.ofNat 45) id_string).length = 5
  case neg =>
    rw [if_pos h5]
    refine ⟨iff_of_false (by simp [Except.isOk, Except.toBool]) (fun h => h5 h.1), ?_, ?_⟩
    · intro st h
      simp at h
    · intro msg h
      simp only [Except.error.injEq] at h
      exact ⟨.wrongPartCount _, h.symm, h ▸ renderSongIdError_names_field _⟩
  case pos =>
    rw [if_neg (by simp [h5])]
    by_cases hb : (parseU32 ((splitOnChar (Char.ofNat 45) id_string).getD 2 [])).isNone ∧
        (splitOnChar (Char.ofNat 45) id_string).getD 2 [] ≠ []
    case pos =>
      rw [if_pos hb]
      refine ⟨iff_of_false (by simp [Except.isOk, Except.toBool]) ?_, ?_, ?_⟩
      · rintro ⟨-, hcond, -, -⟩
        rcases hcond with hcond | hcond
        · exact hb.2 hcond
        · have h2 : (parseU32 ((splitOnChar (Char.ofNat 45) id_string).getD 2 [])).isSome
              = true := hcond
          have h3 := hb.1
          rw [Option.isNone_iff_eq_none] at h3
          rw [h3] at h2
          simp at h2
      · intro st h
        simp at h
      · intro msg h
        simp only [Except.error.injEq] at h
        exact ⟨.invalidBpm _, h.symm, h ▸ renderSongIdError_names_field _⟩
    case neg =>
      rw [if_neg hb]
      cases hlen : parseU32 ((splitOnChar (Char.ofNat 45) id_string).getD 3 []) with
      | none =>
        simp only []
        refine ⟨iff_of_false (by simp [Except.isOk, Except.toBool]) ?_, ?_, ?_⟩
        · rintro ⟨-, -, hcond, -⟩
          simp at hcond
        · intro st h
          simp at h
        · intro msg h
          simp only [Except.error.injEq] at h
          exact ⟨.invalidLength _, h.symm, h ▸ renderSongIdError_names_field _⟩
      | some m =>
        simp only []
        by_cases hs : (parseU64 ((splitOnChar (Char.ofNat 45) id_string).getD 4 [])).isNone ∧
            (splitOnChar (Char.ofNat 45) id_string).getD 4 [] ≠ []
        case pos =>
          rw [if_pos hs]
          refine ⟨iff_of_false (by simp [Except.isOk, Except.toBool]) ?_, ?_, ?_⟩
          · rintro ⟨-, -, -, hcond⟩
            rcases hcond with hcond | hcond
            · exact hs.2 hcond
            · have h2 : (parseU64 ((splitOnChar (Char.ofNat 45) id_string).getD 4 [])).isSome
                  = true := hcond
              have h3 := hs.1
              rw [Option.isNone_iff_eq_none] at h3
              rw [h3] at h2
              simp at h2
          · intro st h
            simp at h
          · intro msg h
            simp only [Except.error.injEq] at h
            exact ⟨.invalidSeed _, h.symm, h ▸ renderSongIdError_names_field _⟩
        case neg =>
          rw [if_neg hs]
          rw [Classical.not_and_iff_or_not_not] at hb hs
          refine ⟨iff_of_true (by simp [Except.isOk, Except.toBool])
            ⟨h5, ?_, by simp, ?_⟩, ?_, ?_⟩
          · rcases hb with hb | hb
            · right
              rw [Option.isNone_iff_eq_none] at hb
              rwa [Option.isSome_iff_ne_none]
            · left
              exact not_not.mp hb
          · rcases hs with hs | hs
            · right
              rw [Option.isNone_iff_eq_none] at hs
              rwa [Option.isSome_iff_ne_none]
            · left
              exact not_not.mp hs
          · intro st h
            simp only [Except.ok.injEq] at h
            exact ⟨m, rfl, h.symm.trans (by simp [AppState.defaultState])⟩
          · intro msg h
            simp at h

/-- Witness for `parse_song_id_spec`: a valid id parses to the expected
state; an id with a malformed BPM produces the BPM-naming error message. -/
theorem parse_song_id_spec_witness :
    (parse_song_id_to_app_state "C-Pop-120-5-42".data).isOk = true ∧
    (∃ m, parseU32 ((splitOnChar (Char.ofNat 45) "C-Pop-120-5-42".data).getD 3 []) = some m ∧
      ({ scale := "C".data, style := "Pop".data, bpm := "120".data,
         length := "5 min".data, seed := "42".data, is_random := false,
         song_loader_input := [] } : AppState) =
        { scale := (splitOnChar (Char.ofNat 45) "C-Pop-120-5-42".data).getD 0 [],
          style := (splitOnChar (Char.ofNat 45) "C-Pop-120-5-42".data).getD 1 [],
          bpm := (splitOnChar (Char.ofNat 45) "C-Pop-120-5-42".data).getD 2 [],
          length := natToChars m ++ " min".data,
          seed := (splitOnChar (Char.ofNat 45) "C-Pop-120-5-42".data).getD 4 [],
          is_random := false,
          song_loader_input := [] }) ∧
    (∃ e : SongIdError,
      renderSongIdError (SongIdError.invalidBpm "9x".data) = renderSongIdError e ∧
      hasRun (songIdErrorField e) (renderSongIdError (SongIdError.invalidBpm "9x".data)) = true ∧
      hasRun songIdFormatHint (renderSongIdError (SongIdError.invalidBpm "9x".data)) = true) :=
  ⟨(parse_song_id_spec "C-Pop-120-5-42".data).1.mpr (by decide),
   (parse_song_id_spec "C-Pop-120-5-42".data).2.1 _ rfl,
   (parse_song_id_spec "C-Pop-9x-5-42".data).2.2 _ rfl⟩

/-- The running peak of the normalization fold is at least its seed. -/
lemma foldl_max_abs_init_le (l : List ℚ) :
    ∀ init : ℚ, init ≤ l.foldl (fun m v => max m |v|) init := by
  induction l with
  | nil => intro init; exact le_refl _
  | cons a as ih =>
    intro init
    exact le_trans (le_max_left init |a|) (ih (max init |a|))

/-- The normalization fold bounds the absolute value of every element. -/
lemma foldl_max_abs_mem_le (l : List ℚ) :
    ∀ init : ℚ, ∀ x ∈ l, |x| ≤ l.foldl (fun m v => max m |v|) init := by
  induction l with
  | nil => intro init x hx; simp at hx
  | cons a as ih =>
    intro init x hx
    rcases List.mem_cons.mp hx with rfl | hx
    · exact le_trans (le_max_right init |x|) (foldl_max_abs_init_le as _)
    · exact ih _ x hx

/-- The normalization fold stays below any bound dominating the seed and all
elements. -/
lemma foldl_max_abs_le (l : List ℚ) (c : ℚ) :
    ∀ init : ℚ, init ≤ c → (∀ x ∈ l, |x| ≤ c) →
      l.foldl (fun m v => max m |v|) init ≤ c := by
  induction l with
  | nil => intro init h _; exact h
  | cons a as ih =>
    intro init h hall
    exact ih _ (max_le h (hall a (List.mem_cons_self a as)))
      fun x hx => hall x (List.mem_cons_of_mem a hx)

/-- `normalizeBuffer` preserves length. -/
lemma normalizeBuffer_length (buf : List ℚ) :
    (normalizeBuffer buf).length = buf.length := by
  unfold normalizeBuffer
  split
  · rfl
  · simp only []
    split
    · simp
    · rfl

/-- `mixBuffers` has the melody's length. -/
lemma mixBuffers_length (melody chord bass : List ℚ) :
    (mixBuffers melody chord bass).length = melody.length := by
  simp [mixBuffers]

/-- Every sample of a normalized buffer has absolute value at most 1. -/
lemma normalizeBuffer_le_one (buf : List ℚ) :
    ∀ x ∈ normalizeBuffer buf, |x| ≤ 1 := by
  unfold normalizeBuffer
  split
  · intro x hx
    rename_i hemp
    rw [List.isEmpty_iff] at hemp
    rw [hemp] at hx
    simp at hx
  · simp only []
    split
    · rename_i hgt
      intro x hx
      rw [List.mem_map] at hx
      obtain ⟨y, hy, rfl⟩ := hx
      have hM : (0 : ℚ) < buf.foldl (fun m v => max m |v|) 0 := lt_trans one_pos hgt
      have hyM := foldl_max_abs_mem_le buf 0 y hy
      rw [abs_div, abs_of_pos hM, div_le_one hM]
      exact hyM
    · rename_i hle
      intro x hx
      push_neg at hle
      exact le_trans (foldl_max_abs_mem_le buf 0 x hx) hle

/-- When the peak is already at most 1, normalization is the identity. -/
lemma normalizeBuffer_noop (buf : List ℚ) (h : ∀ x ∈ buf, |x| ≤ 1) :
    normalizeBuffer buf = buf := by
  unfold normalizeBuffer
  split
  · rfl
  · simp only []
    rw [if_neg]
    push_neg
    exact foldl_max_abs_le buf 1 0 zero_le_one h

/-- The mixed output is definitionally the normalized premix. -/
lemma generate_audio_mixed_eq {S : Type} (env : Env S) (entropy : ℕ)
    (app : AppState) :
    (generate_audio_from_state env entropy app).1 =
      normalizeBuffer (genPipeline env entropy app).premix := rfl

/-- The premix is definitionally the mix of the three voice buffers. -/
lemma genPipeline_premix_eq {S : Type} (env : Env S) (entropy : ℕ)
    (app : AppState) :
    (genPipeline env entropy app).premix =
      mixBuffers (genPipeline env entropy app).melody
        (genPipeline env entropy app).chordSeq
        (genPipeline env entropy app).bass := rfl

/-- C3: after the normalization step every sample of the mixed buffer has
absolute value at most 1, and when the pre-normalization peak is already at
most 1 the buffer is returned unchanged (normalization is a no-op, not an
unconditional attenuation). -/
theorem mixed_normalization_sound {S : Type} (env : Env S) (entropy : ℕ)
    (app : AppState) :
    (generate_audio_from_state env entropy app).1 =
      normalizeBuffer (genPipeline env entropy app).premix ∧
    (∀ x ∈ (generate_audio_from_state env entropy app).1, |x| ≤ 1) ∧
    ((∀ x ∈ (genPipeline env entropy app).premix, |x| ≤ 1) →
      (generate_audio_from_state env entropy app).1 =
        (genPipeline env entropy app).premix) := by
  refine ⟨rfl, ?_, ?_⟩
  · rw [generate_audio_mixed_eq]
    exact normalizeBuffer_le_one _
  · intro h
    rw [generate_audio_mixed_eq]
    exact normalizeBuffer_noop _ h

/-- With target duration 0 every rhythm pattern yields no notes. -/
lemma buildDurations_target_zero {S : Type} (env : Env S)
    (pattern : RhythmPattern) (spqn : ℚ) (s : S) :
    (buildDurations env pattern spqn 0 s).1 = [] := by
  cases pattern with
  | Simple => simp [buildDurations]
  | Medium =>
    show (mediumAux env spqn 0 (durFuel spqn 0) 0 s).1 = []
    cases durFuel spqn 0 with
    | zero => rfl
    | succ n =>
      rw [mediumAux]
      simp
  | Complex =>
    show (complexAux env spqn 0 (durFuel spqn 0) 0 s).1 = []
    cases durFuel spqn 0 with
    | zero => rfl
    | succ n =>
      rw [complexAux]
      simp
  | Syncopated =>
    show (syncopatedAux env spqn 0 (durFuel spqn 0) 0 0 false s).1 = []
    cases durFuel spqn 0 with
    | zero => rfl
    | succ n =>
      rw [syncopatedAux]
      simp

/-- A zero-second melody renders to an empty buffer. -/
lemma generate_melody_samples_duration_zero {S : Type} (env : Env S)
    (root_pc : ℕ) (mode : MMode) (octave : ℤ) (pattern : RhythmPattern)
    (spqn : ℚ) (seed : ℕ) :
    generate_melody_samples env root_pc mode octave pattern 0 spqn seed = [] := by
  unfold generate_melody_samples
  simp only [Nat.cast_zero, buildDurations_target_zero, List.length_nil,
    melodyWalk, melodyWalkAux, List.zip_nil_right]
  rfl

/-- `get_melody` with a zero-second duration is empty for every style. -/
lemma get_melody_duration_zero {S : Type} (env : Env S) (style : RStr)
    (root : ℕ) (spqn : ℚ) (seed : ℕ) :
    get_melody env style root 0 spqn seed = [] := by
  unfold get_melody
  split_ifs <;> simp [generate_melody_samples_duration_zero]

/-- When the parsed duration is non-positive the pipeline melody is empty. -/
lemma genPipeline_melody_empty_of_dur {S : Type} (env : Env S) (entropy : ℕ)
    (app : AppState) (h : durationSecondsOf env app.length ≤ 0) :
    (genPipeline env entropy app).melody = [] := by
  have h0 : ratToU32 (durationSecondsOf env app.length) = 0 := by
    unfold ratToU32
    have hfl : ⌊durationSecondsOf env app.length⌋ ≤ 0 := by
      calc ⌊durationSecondsOf env app.length⌋ ≤ ⌊(0 : ℚ)⌋ := Int.floor_le_floor h
      _ = 0 := Int.floor_zero
    rw [Int.toNat_eq_zero.mpr hfl]
    exact Nat.zero_min _
  show get_melody env app.style (scaleToRoot app.scale)
      (ratToU32 (durationSecondsOf env app.length))
      (60 / (((bpmOf env (actualSeedOf app.seed entropy) app.bpm).1 : ℕ) : ℚ))
      (actualSeedOf app.seed entropy) = []
  rw [h0]
  exact get_melody_duration_zero env app.style (scaleToRoot app.scale) _ _

/-- C2: the mixed buffer returned by `generate_audio_from_state` always has
exactly the melody buffer's length; an empty melody yields an empty mix, and
a non-positive parsed duration forces both to be empty. -/
theorem mixed_length_eq_melody_length {S : Type} (env : Env S) (entropy : ℕ)
    (app : AppState) :
    (generate_audio_from_state env entropy app).1.length =
      (genPipeline env entropy app).melody.length ∧
    ((genPipeline env entropy app).melody = [] →
      (generate_audio_from_state env entropy app).1 = []) ∧
    (durationSecondsOf env app.length ≤ 0 →
      (genPipeline env entropy app).melody = [] ∧
      (generate_audio_from_state env entropy app).1 = []) := by
  have hlen : (generate_audio_from_state env entropy app).1.length =
      (genPipeline env entropy app).melody.length := by
    rw [generate_audio_mixed_eq, normalizeBuffer_length, genPipeline_premix_eq,
      mixBuffers_length]
  have hemp : (genPipeline env entropy app).melody = [] →
      (generate_audio_from_state env entropy app).1 = [] := by
    intro hm
    have := hlen
    rw [hm] at this
    simpa [List.length_eq_zero] using this
  exact ⟨hlen, hemp, fun h =>
    ⟨genPipeline_melody_empty_of_dur env entropy app h,
     hemp (genPipeline_melody_empty_of_dur env entropy app h)⟩⟩

/-- The test state has a non-positive (zero) parsed duration. -/
lemma testApp_duration_nonpos : durationSecondsOf testEnv testApp.length ≤ 0 := by
  have : durMinutes testEnv testApp.length = 0 := rfl
  unfold durationSecondsOf
  rw [this]
  norm_num

/-- Witness for `mixed_length_eq_melody_length` at the concrete zero-length
song, discharging both inner hypotheses. -/
theorem mixed_length_eq_melody_length_witness :
    (generate_audio_from_state testEnv 3 testApp).1.length =
      (genPipeline testEnv 3 testApp).melody.length ∧
    (genPipeline testEnv 3 testApp).melody = [] ∧
    (generate_audio_from_state testEnv 3 testApp).1 = [] :=
  ⟨(mixed_length_eq_melody_length testEnv 3 testApp).1,
   ((mixed_length_eq_melody_length testEnv 3 testApp).2.2 testApp_duration_nonpos).1,
   (mixed_length_eq_melody_length testEnv 3 testApp).2.1
     ((mixed_length_eq_melody_length testEnv 3 testApp).2.2 testApp_duration_nonpos).1⟩

/-- Witness for `mixed_normalization_sound` at the concrete zero-length
song: the premix is empty, so the no-op hypothesis holds concretely. -/
theorem mixed_normalization_sound_witness :
    (generate_audio_from_state testEnv 3 testApp).1 =
      normalizeBuffer (genPipeline testEnv 3 testApp).premix ∧
    (∀ x ∈ (generate_audio_from_state testEnv 3 testApp).1, |x| ≤ 1) ∧
    (generate_audio_from_state testEnv 3 testApp).1 =
      (genPipeline testEnv 3 testApp).premix :=
  ⟨(mixed_normalization_sound testEnv 3 testApp).1,
   (mixed_normalization_sound testEnv 3 testApp).2.1,
   (mixed_normalization_sound testEnv 3 testApp).2.2 (by
     rw [genPipeline_premix_eq,
       genPipeline_melody_empty_of_dur testEnv 3 testApp testApp_duration_nonpos]
     intro x hx
     simp [mixBuffers] at hx)⟩

/-- C1: when the seed field parses as a `u64`, the generated audio is a
function of the five parameter fields alone — two runs (with arbitrary,
possibly different, entropy draws, and on any state agreeing on the five
parameter fields) produce identical melody, chord-sequence, and bass
buffers, an identical mixed buffer, and report the parsed seed. -/
theorem generation_deterministic {S : Type} (env : Env S) (app app2 : AppState)
    (n e1 e2 : ℕ) (hseed : parseU64 app.seed = some n)
    (hfields : app2.scale = app.scale ∧ app2.style = app.style ∧
      app2.bpm = app.bpm ∧ app2.length = app.length ∧ app2.seed = app.seed) :
    (genPipeline env e1 app).melody = (genPipeline env e2 app2).melody ∧
    (genPipeline env e1 app).chordSeq = (genPipeline env e2 app2).chordSeq ∧
    (genPipeline env e1 app).bass = (genPipeline env e2 app2).bass ∧
    generate_audio_from_state env e1 app = generate_audio_from_state env e2 app2 ∧
    (generate_audio_from_state env e1 app).2.2 = n := by
  obtain ⟨h1, h2, h3, h4, h5⟩ := hfields
  have hs1 : actualSeedOf app.seed e1 = n := by
    unfold actualSeedOf
    rw [hseed]
    rfl
  have hs2 : actualSeedOf app2.seed e2 = n := by
    unfold actualSeedOf
    rw [h5, hseed]
    rfl
  have key : genPipeline env e1 app = genPipeline env e2 app2 := by
    unfold genPipeline
    rw [h1, h2, h3, h4, hs1, hs2]
  refine ⟨by rw [key], by rw [key], by rw [key], ?_, ?_⟩
  · unfold generate_audio_from_state
    rw [key]
  · show (genPipeline env e1 app).actualSeed = n
    show actualSeedOf app.seed e1 = n
    exact hs1

/-- Witness for `generation_deterministic`: `testApp` has the explicit seed
7; entropy draws 3 and 5 give identical outputs reporting seed 7. -/
theorem generation_deterministic_witness :
    (genPipeline testEnv 3 testApp).melody = (genPipeline testEnv 5 testApp).melody ∧
    (genPipeline testEnv 3 testApp).chordSeq = (genPipeline testEnv 5 testApp).chordSeq ∧
    (genPipeline testEnv 3 testApp).bass = (genPipeline testEnv 5 testApp).bass ∧
    generate_audio_from_state testEnv 3 testApp = generate_audio_from_state testEnv 5 testApp ∧
    (generate_audio_from_state testEnv 3 testApp).2.2 = 7 :=
  generation_deterministic testEnv testApp testApp 7 3 5 rfl
    ⟨rfl, rfl, rfl, rfl, rfl⟩

/-- A successful `choose` returns an element of the slice. -/
lemma envChoose_mem {S α : Type} (env : Env S) (l : List α) (s : S) (c : α)
    (h : (envChoose env l s).1 = some c) : c ∈ l := by
  unfold envChoose at h
  simp only [] at h
  exact List.get?_mem h

/-- Every candidate in `possible_jumps` is a valid scale index once the
scale has at least five notes (the hard-coded final-note bias candidates are
0 and 4; all step/leap candidates are filtered against the length, including
the wrapped negative jumps from low indices). -/
lemma possibleJumps_mem_lt (scale_len prev total_beats i : ℕ) (hL : 5 ≤ scale_len) :
    ∀ x ∈ possibleJumps scale_len prev total_beats i, x < scale_len := by
  intro x hx
  unfold possibleJumps at hx
  simp only [List.mem_append, List.mem_flatMap] at hx
  rcases hx with (⟨j, hj, hx⟩ | ⟨j, hj, hx⟩) | hx
  · split at hx
    · rename_i hlt
      rcases List.mem_cons.mp hx with rfl | hx2
      · exact hlt
      · rcases List.mem_cons.mp hx2 with rfl | hx3
        · exact hlt
        · simp at hx3
    · simp at hx
  · split at hx
    · rename_i hbound
      rcases List.mem_cons.mp hx with rfl | hx2
      · omega
      · simp at hx2
    · simp at hx
  · split at hx
    · simp only [List.mem_append, List.mem_replicate, List.mem_singleton] at hx
      rcases hx with ⟨-, rfl⟩ | rfl <;> omega
    · simp at hx

/-- Every scale-degree index produced by the melodic walk is strictly below
the scale length, for any generator behaviour, starting index, and previous
index. -/
lemma melodyWalkAux_fst_lt {S : Type} (env : Env S) (scale_len total_beats : ℕ)
    (octave : ℤ) (hL : 5 ≤ scale_len) :
    ∀ remaining i prev s,
      ∀ p ∈ (melodyWalkAux env scale_len total_beats octave remaining i prev s).1,
        p.1 < scale_len := by
  intro remaining
  induction remaining with
  | zero =>
    intro i prev s p hp
    simp [melodyWalkAux] at hp
  | succ n ih =>
    intro i prev s p hp
    rw [melodyWalkAux] at hp
    simp only [] at hp
    split at hp
    · rcases List.mem_cons.mp hp with rfl | hp2
      · show (envChoose env [0, 4] s).1.getD 0 < scale_len
        cases hc : (envChoose env [0, 4] s).1 with
        | none =>
          simp only [Option.getD_none]
          omega
        | some c =>
          have := envChoose_mem env _ s c hc
          simp only [Option.getD_some]
          rcases List.mem_cons.mp this with rfl | h2
          · omega
          · rcases List.mem_cons.mp h2 with rfl | h3
            · omega
            · simp at h3
      · exact ih _ _ _ p hp2
    · rcases List.mem_cons.mp hp with rfl | hp2
      · show (envChoose env (possibleJumps scale_len prev total_beats i) _).1.getD 0
            < scale_len
        cases hc : (envChoose env (possibleJumps scale_len prev total_beats i) _).1 with
        | none =>
          simp only [Option.getD_none]
          omega
        | some c =>
          have := envChoose_mem env _ _ c hc
          simp only [Option.getD_some]
          exact possibleJumps_mem_lt scale_len prev total_beats i hL c this
      · exact ih _ _ _ p hp2
    
/-- C9: for every generator behaviour, rhythm pattern (hence note count),
scale of at least five notes (the diatonic scales used have eight), octave
and starting state, the scale-degree walk only produces indices strictly
below the scale-note list's length — every candidate is range-checked before
selection, including those wrapped around from negative jumps — so
`scale_notes[prev_note_idx]` never goes out of bounds. -/
theorem melody_walk_in_bounds {S : Type} (env : Env S) (scale_len total_beats : ℕ)
    (octave : ℤ) (s : S) (hL : 5 ≤ scale_len) :
    (∀ prev i, ∀ x ∈ possibleJumps scale_len prev total_beats i, x < scale_len) ∧
    (∀ p ∈ (melodyWalk env scale_len total_beats octave s).1, p.1 < scale_len) :=
  ⟨fun prev i => possibleJumps_mem_lt scale_len prev total_beats i hL,
   fun p hp => melodyWalkAux_fst_lt env scale_len total_beats octave hL
     total_beats 0 0 s p hp⟩

/-- Witness for `melody_walk_in_bounds` on the eight-note diatonic scale
with a three-beat walk. -/
theorem melody_walk_in_bounds_witness :
    (∀ prev i, ∀ x ∈ possibleJumps 8 prev 3 i, x < 8) ∧
    (∀ p ∈ (melodyWalk testEnv 8 3 3 0).1, p.1 < 8) :=
  melody_walk_in_bounds testEnv 8 3 3 0 (by norm_num)


/-- The displayed sample count never exceeds the total. -/
lemma displayValue_le_total (st : PlayerState) (t : ℕ) :
    displayValue st t ≤ st.total_samples :=
  min_le_right _ _

/-- The displayed sample count is monotone in wall-clock time. -/
lemma displayValue_mono (st : PlayerState) {t0 t1 : ℕ} (h : t0 ≤ t1) :
    displayValue st t0 ≤ displayValue st t1 := by
  unfold displayValue
  simp only []
  by_cases hc : ¬st.sink_paused ∧ st.playback_start_time.isSome
  · simp only [if_pos hc]
    exact min_le_min (Nat.add_le_add_left (Nat.sub_le_sub_right h _) _) le_rfl
  · simp only [if_neg hc]
    exact le_refl _

/-- Pausing freezes the displayed count at its current value. -/
lemma handleCommand_pause_display (t : ℕ) (st : PlayerState) :
    displayValue (handleCommand .Pause t st).1 t = displayValue st t := by
  unfold handleCommand
  simp only []
  split
  · rename_i hcond
    unfold displayValue
    simp [hcond]
  · rename_i hcond
    unfold displayValue
    simp only []
    rw [if_neg hcond]
    simp

/-- Resuming restarts the elapsed clock, keeping the displayed count. -/
lemma handleCommand_resume_display (t : ℕ) (st : PlayerState) :
    displayValue (handleCommand .Resume t st).1 t = displayValue st t := by
  unfold handleCommand
  simp only []
  split
  · rename_i hcond
    unfold displayValue
    simp [hcond.1, Nat.sub_self]
  · rfl

/-- An active progress tick emits the clamped display value and leaves the
display at the same instant unchanged. -/
lemma progressTick_active (t : ℕ) (st : PlayerState)
    (hg : 0 < st.total_samples) (hterm : st.should_terminate = false) :
    (progressTick t st).2 = some (displayValue st t) ∧
    displayValue (progressTick t st).1 t = displayValue st t := by
  unfold progressTick
  rw [if_pos (by exact ⟨hg, by simp [hterm]⟩ :
    0 < st.total_samples ∧ ¬st.should_terminate = true)]
  simp only []
  refine ⟨trivial, ?_⟩
  split
  · rename_i hcond
    have h2 : displayValue st t = st.total_samples :=
      le_antisymm (displayValue_le_total st t) hcond.1
    rw [h2]
    unfold displayValue
    simp
  · rfl

/-- Commands never change the loaded total. -/
lemma handleCommand_total_eq (c : MusicControl) (t : ℕ) (st : PlayerState) :
    (handleCommand c t st).1.total_samples = st.total_samples := by
  cases c with
  | Pause =>
    simp only [handleCommand]
    split <;> rfl
  | Resume =>
    simp only [handleCommand]
    split <;> rfl
  | Rewind =>
    simp only [handleCommand]
    split <;> rfl
  | Terminate => rfl

/-- Progress reporting never changes the loaded total. -/
lemma progressTick_total_eq (t : ℕ) (st : PlayerState) :
    (progressTick t st).1.total_samples = st.total_samples := by
  unfold progressTick
  split
  · simp only []
    split <;> rfl
  · rfl

/-- A terminated service processes nothing further. -/
lemma runService_terminated (st : PlayerState) (h : st.should_terminate = true) :
    ∀ evs, runService st evs = (st, []) := by
  intro evs
  cases evs with
  | nil => rfl
  | cons e rest =>
    unfold runService
    rw [if_pos h]

/-- An inactive progress tick (nothing loaded) emits nothing and changes
nothing. -/
lemma progressTick_inactive (t : ℕ) (st : PlayerState)
    (hg : ¬(0 < st.total_samples ∧ ¬st.should_terminate = true)) :
    progressTick t st = (st, none) := by
  unfold progressTick
  rw [if_neg hg]

/-- Along any terminate-free-start schedule with monotone stamps and no
Rewind, the emitted snapshots form a non-decreasing chain bounded by the
total, and the first emission is at least the current display value. -/
lemma runService_emits_spec :
    ∀ (evs : List ServiceEvent) (st : PlayerState) (t0 : ℕ),
      timesOK t0 evs → noRewind evs →
      List.Chain' (· ≤ ·) (runService st evs).2 ∧
      (∀ v ∈ (runService st evs).2, v ≤ st.total_samples) ∧
      (∀ v ∈ (runService st evs).2.head?, displayValue st t0 ≤ v) := by
  intro evs
  induction evs with
  | nil =>
    intro st t0 _ _
    exact ⟨List.chain'_nil, by simp [runService], by simp [runService]⟩
  | cons e rest ih =>
    intro st t0 htimes hnorw
    have htimes1 : t0 ≤ e.time ∧ timesOK e.time rest := by
      simp only [timesOK, timesOKb, Bool.and_eq_true, decide_eq_true_eq] at htimes
      exact htimes
    have hnorw1 : noRewind rest := fun t ht => hnorw t (List.mem_cons_of_mem e ht)
    by_cases hterm : st.should_terminate = true
    · rw [runService_terminated st hterm]
      exact ⟨List.chain'_nil, by simp, by simp⟩
    · rw [runService.eq_def]
      simp only []
      rw [if_neg hterm]
      simp only []
      cases e with
      | cmd c t =>
        simp only []
        have ht0t : t0 ≤ t := htimes1.1
        have htok : timesOK t rest := htimes1.2
        cases c with
        | Rewind => exact (hnorw t (List.mem_cons_self _ _)).elim
        | Terminate =>
          rw [runService_terminated _ rfl rest]
          refine ⟨?_, ?_, ?_⟩ <;> simp [handleCommand]
        | Pause =>
          obtain ⟨hch, hbd, hhd⟩ := ih (handleCommand .Pause t st).1 t htok hnorw1
          refine ⟨by simpa [handleCommand] using hch, ?_, ?_⟩
          · intro v hv
            simp only [handleCommand, Option.toList_none, List.nil_append] at hv
            have := hbd v hv
            rwa [handleCommand_total_eq] at this
          · intro v hv
            simp only [handleCommand, Option.toList_none, List.nil_append] at hv
            refine le_trans (displayValue_mono st ht0t) ?_
            rw [← handleCommand_pause_display t st]
            exact hhd v hv
        | Resume =>
          obtain ⟨hch, hbd, hhd⟩ := ih (handleCommand .Resume t st).1 t htok hnorw1
          refine ⟨by simpa [handleCommand] using hch, ?_, ?_⟩
          · intro v hv
            simp only [handleCommand, Option.toList_none, List.nil_append] at hv
            have := hbd v hv
            rwa [handleCommand_total_eq] at this
          · intro v hv
            simp only [handleCommand, Option.toList_none, List.nil_append] at hv
            refine le_trans (displayValue_mono st ht0t) ?_
            rw [← handleCommand_resume_display t st]
            exact hhd v hv
      | tick t =>
        simp only []
        have ht0t : t0 ≤ t := htimes1.1
        have htok : timesOK t rest := htimes1.2
        by_cases hg : 0 < st.total_samples
        · have hterm2 : st.should_terminate = false := by
            simpa using hterm
          obtain ⟨hsnd, hdisp⟩ := progressTick_active t st hg hterm2
          obtain ⟨hch, hbd, hhd⟩ := ih (progressTick t st).1 t htok hnorw1
          rw [hsnd]
          simp only [Option.toList_some, List.cons_append, List.nil_append]
          refine ⟨?_, ?_, ?_⟩
          · rw [List.chain'_cons']
            refine ⟨?_, hch⟩
            intro b hb
            have := hhd b hb
            rwa [hdisp] at this
          · intro v hv
            rcases List.mem_cons.mp hv with rfl | hv2
            · exact displayValue_le_total st t
            · have := hbd v hv2
              rwa [progressTick_total_eq] at this
          · intro v hv
            simp only [List.head?_cons, Option.mem_def, Option.some.injEq] at hv
            rw [← hv]
            exact displayValue_mono st ht0t
        · have hni : progressTick t st = (st, none) :=
            progressTick_inactive t st (fun hcc => hg hcc.1)
          rw [hni]
          obtain ⟨hch, hbd, hhd⟩ := ih st t htok hnorw1
          refine ⟨by simpa using hch, ?_, ?_⟩
          · intro v hv
            simp only [Option.toList_none, List.nil_append] at hv
            exact hbd v hv
          · intro v hv
            simp only [Option.toList_none, List.nil_append] at hv
            exact le_trans (displayValue_mono st ht0t) (hhd v hv)

/-- C4: within one playback session (a schedule with monotone wall-clock
stamps and no Rewind command), the emitted `current_samples` values are
non-decreasing and never exceed `total_samples`; and whenever the clamped
display value reaches the total while playing, the progress step
auto-pauses — it stops the sink, clears the start instant, and fixes the
accumulated count at `total_samples`, emitting exactly the total. -/
theorem service_progress_monotone (st : PlayerState) (t0 : ℕ)
    (evs : List ServiceEvent) (htimes : timesOK t0 evs) (hnorw : noRewind evs) :
    (List.Chain' (· ≤ ·) (serviceEmits st evs) ∧
     ∀ v ∈ serviceEmits st evs, v ≤ st.total_samples) ∧
    (∀ (t : ℕ) (st0 : PlayerState), 0 < st0.total_samples →
      st0.should_terminate = false → st0.sink_paused = false →
      st0.total_samples ≤ displayValue st0 t →
      (progressTick t st0).1.sink_paused = true ∧
      (progressTick t st0).1.playback_start_time = none ∧
      (progressTick t st0).1.samples_played_at_pause = st0.total_samples ∧
      (progressTick t st0).2 = some st0.total_samples) := by
  constructor
  · have h := runService_emits_spec evs st t0 htimes hnorw
    exact ⟨h.1, h.2.1⟩
  · intro t st0 hg hterm hp hreach
    have hdisp : displayValue st0 t = st0.total_samples :=
      le_antisymm (displayValue_le_total _ _) hreach
    unfold progressTick
    rw [if_pos (⟨hg, by simp [hterm]⟩ :
      0 < st0.total_samples ∧ ¬st0.should_terminate = true)]
    simp only []
    rw [if_pos (⟨hreach, by simp [hp]⟩ :
      st0.total_samples ≤ displayValue st0 t ∧ ¬st0.sink_paused = true)]
    exact ⟨rfl, rfl, rfl, by rw [hdisp]⟩

/-- Witness for `service_progress_monotone`: a concrete
play/pause/resume/run-to-end schedule (emissions 30, 40, 100, 100) and a
concrete auto-pause step. -/
theorem service_progress_monotone_witness :
    (List.Chain' (· ≤ ·)
      (serviceEmits ⟨true, 100, 0, some 0, false, false⟩
        [.tick 30, .cmd .Pause 40, .tick 50, .cmd .Resume 60, .tick 200, .tick 210]) ∧
     ∀ v ∈ serviceEmits ⟨true, 100, 0, some 0, false, false⟩
        [.tick 30, .cmd .Pause 40, .tick 50, .cmd .Resume 60, .tick 200, .tick 210],
       v ≤ (⟨true, 100, 0, some 0, false, false⟩ : PlayerState).total_samples) ∧
    ((progressTick 20 ⟨true, 10, 0, some 0, false, false⟩).1.sink_paused = true ∧
     (progressTick 20 ⟨true, 10, 0, some 0, false, false⟩).1.playback_start_time = none ∧
     (progressTick 20 ⟨true, 10, 0, some 0, false, false⟩).1.samples_played_at_pause = 10 ∧
     (progressTick 20 ⟨true, 10, 0, some 0, false, false⟩).2 = some 10) :=
  ⟨(service_progress_monotone ⟨true, 100, 0, some 0, false, false⟩ 0
      [.tick 30, .cmd .Pause 40, .tick 50, .cmd .Resume 60, .tick 200, .tick 210]
      (by decide) (by decide)).1,
   (service_progress_monotone ⟨true, 100, 0, some 0, false, false⟩ 0
      [.tick 30, .cmd .Pause 40, .tick 50, .cmd .Resume 60, .tick 200, .tick 210]
      (by decide) (by decide)).2 20 ⟨true, 10, 0, some 0, false, false⟩
      (by decide) rfl rfl (by decide)⟩

